import Mathlib

/-!
Verification of the project_librarian repository's core data-access logic.

The Python source (src/v1/common/firestore_tools.py and friends) is shallowly
embedded: instants are `Int` seconds since the Unix epoch (an aware Python
datetime denotes an instant; its JST wall clock is the instant plus the fixed
九 hour offset, Asia/Tokyo having no DST), documents are typed structures,
fallible paths return explicit outcome types, and an exception that escapes a
`try` block is an explicit `uncaught` outcome.
-/

namespace ProjectLibrarian

/-! ## Advice scheduling queue (firestore_create_advice_queue) -/

/-- Fixed Asia/Tokyo offset, in seconds (ZoneInfo "Asia/Tokyo", no DST). -/
def jstOffsetSeconds : Int := 9 * 3600

/-- Hour component of the JST wall clock of an instant `t` (seconds since epoch):
`jst_time.hour` for the aware datetime `t` converted via `astimezone(ZoneInfo("Asia/Tokyo"))`. -/
def jstHour (t : Int) : Int := ((t + jstOffsetSeconds).emod 86400) / 3600

/-- Minute component of the JST wall clock of an instant (for `strftime` in the error message). -/
def jstMinute (t : Int) : Int := (((t + jstOffsetSeconds).emod 86400) / 60) % 60

/-- The delay table `priority_to_delay = {5: 10, 4: 15, 3: 20, 2: 25, 1: 30}` with
`.get(priority, 15)` (unrecognized priority defaults to 15 minutes). -/
def priority_to_delay (p : Int) : Int :=
  if p = 5 then 10
  else if p = 4 then 15
  else if p = 3 then 20
  else if p = 2 then 25
  else if p = 1 then 30
  else 15

/-- The backoff step of firestore_create_advice_queue: if the proposed instant is not
strictly after `now` (`jst_time <= current_time` on aware datetimes compares instants),
replace it by `now + timedelta(minutes = priority_to_delay priority)`. -/
def effectiveAdviceInstant (proposed now priority : Int) : Int :=
  if proposed ≤ now then now + 60 * priority_to_delay priority else proposed

/-- The document written to the adviceQueue collection. -/
structure AdviceDoc where
  user_email : String
  project_id : Option String
  task_id : Option String
  advice_type : String
  priority : Int
  reason : String
  advice_time : Int
  status : String
  created_at : Int
  processed_at : Option Int
  result : Option String
deriving DecidableEq, Repr

/-- Outcome of firestore_create_advice_queue: the function always returns a message
string; on success a document has been added to the store. -/
inductive AdviceOutcome where
  | queued (msg : String) (written : AdviceDoc)
  | errorResult (msg : String)
deriving DecidableEq, Repr

def AdviceOutcome.message : AdviceOutcome → String
  | .queued m _ => m
  | .errorResult m => m

def AdviceOutcome.written : AdviceOutcome → Option AdviceDoc
  | .queued _ d => some d
  | .errorResult _ => none

/-- Zero-padded two-digit rendering used by `strftime("%H:%M")`. -/
def twoDigits (n : Int) : String :=
  if n < 10 then "0" ++ toString n else toString n

/-- The out-of-window error message of firestore_create_advice_queue. -/
def invalidTimeMsg (suggested : String) (t : Int) : String :=
  "❌ Invalid time: " ++ suggested ++ " (JST: " ++ twoDigits (jstHour t) ++ ":"
    ++ twoDigits (jstMinute t) ++ "). Must be between 9:00-18:00 JST."

/-- The ValueError message for an unparsable suggested_time (the appended Python
exception text is not modelled). -/
def invalidFormatMsg (suggested : String) : String :=
  "❌ Invalid time format: " ++ suggested ++ ". Use ISO format. Error: ValueError"

/-- The success message of firestore_create_advice_queue; note it interpolates the raw
`suggested_time` argument. -/
def adviceSuccessMsg (user_email : String) (priority : Int) (docId suggested : String) : String :=
  "✅ Advice queued for " ++ user_email ++ " (Priority " ++ toString priority
    ++ ", ID: " ++ docId ++ ", Time: " ++ suggested ++ ")"

/-- Embedding of `firestore_create_advice_queue` (src/v1/common/firestore_tools.py,
lines 1031-1165).  `parsedSuggested` is the instant denoted by the ISO string
`suggested_time` (`none` when `datetime.fromisoformat` raises ValueError), `now` is the
instant captured once as `datetime.now(ZoneInfo("Asia/Tokyo"))`, and `newDocId` is the
store-assigned id of the added document. -/
def firestore_create_advice_queue (user_email : String) (project_id task_id : Option String)
    (advice_type : String) (priority : Int) (reason : String)
    (suggested_time : String) (parsedSuggested : Option Int) (now : Int)
    (newDocId : String) : AdviceOutcome :=
  match parsedSuggested with
  | none => .errorResult (invalidFormatMsg suggested_time)
  | some proposed =>
    let jst_time := effectiveAdviceInstant proposed now priority
    let hour := jstHour jst_time
    if hour < 9 ∨ 18 ≤ hour then
      .errorResult (invalidTimeMsg suggested_time jst_time)
    else
      .queued (adviceSuccessMsg user_email priority newDocId suggested_time)
        { user_email := user_email
          project_id := project_id
          task_id := task_id
          advice_type := advice_type
          priority := priority
          reason := reason
          advice_time := jst_time
          status := "pending"
          created_at := now
          processed_at := none
          result := none }

/-! ## Clock conventions (const.ADJUST_TIME vs the fixed Asia/Tokyo zone)

`const.ADJUST_TIME = 0 if IS_LOCAL else 9` (src/v1/common/const.py).  The helper
`convert_utc_to_jst` (src/v0/common/utils.py) converts a UTC instant to the fixed
offset `timezone(timedelta(hours=ADJUST_TIME))`; it is used by
firestore_get_pending_advice_queue (threshold) and firestore_update_advice_queue_status
(processed_at), while firestore_create_advice_queue uses `ZoneInfo("Asia/Tokyo")`
unconditionally.  The functions below give the local wall-clock reading (seconds) each
code path attaches to the same UTC call instant `utcNow`. -/

def ADJUST_TIME (isLocal : Bool) : Int := if isLocal then 0 else 9

/-- Wall clock of the "now" captured by firestore_create_advice_queue:
`datetime.now(ZoneInfo("Asia/Tokyo"))`, a fixed +9 h offset independent of IS_LOCAL. -/
def adviceQueueNowLocal (utcNow : Int) : Int := utcNow + 9 * 3600

/-- Wall clock produced by `convert_utc_to_jst(datetime.now(timezone.utc))`:
`astimezone(timezone(timedelta(hours=ADJUST_TIME)))`. -/
def convert_utc_to_jst_local (isLocal : Bool) (utcNow : Int) : Int :=
  utcNow + ADJUST_TIME isLocal * 3600

/-- The trailing-window threshold of firestore_get_pending_advice_queue:
`convert_utc_to_jst(now) - timedelta(hours=hours)`. -/
def pendingThresholdLocal (isLocal : Bool) (utcNow hours : Int) : Int :=
  convert_utc_to_jst_local isLocal utcNow - hours * 3600

/-- The `processed_at` stamp of firestore_update_advice_queue_status:
`convert_utc_to_jst(datetime.now(timezone.utc))`. -/
def updateStatusProcessedAtLocal (isLocal : Bool) (utcNow : Int) : Int :=
  convert_utc_to_jst_local isLocal utcNow

/-! ## Work-item repository: project create / update (firestore_create_project,
firestore_update_project) -/

/-- A rule entry; v1 stores the supplied rules unchanged. -/
structure RuleIn where
  content : String
  priority : String
deriving DecidableEq, Repr

/-- A member dict as supplied by the caller.  `none` models an absent key; the five
fields are the ones the v1 code reads or the coordinator instruction tells the model to
pass (`email`, `role`, `isOwner`, plus `userRef` and `roleDetails` carried through). -/
structure MemberIn where
  userRef : Option String
  email : Option String
  role : Option String
  roleDetails : Option String
  isOwner : Option Bool
deriving DecidableEq, Repr

/-- A member element of the `members` argument: either a dict or a plain string (the
Python signature says `List[Dict]` but is not enforced). -/
inductive MemberInput where
  | str (s : String)
  | obj (m : MemberIn)
deriving DecidableEq, Repr

/-- Python truthiness of `any(m.values())` over the present keys of a member dict. -/
def MemberIn.anyTruthy (m : MemberIn) : Bool :=
  (match m.userRef with | some s => !s.isEmpty | none => false)
  || (match m.email with | some s => !s.isEmpty | none => false)
  || (match m.role with | some s => !s.isEmpty | none => false)
  || (match m.roleDetails with | some s => !s.isEmpty | none => false)
  || (match m.isOwner with | some b => b | none => false)

/-- `m.get("userRef") or m.get("email")`: the identity string the `@` test inspects
(Python `or` falls through on a falsy, i.e. empty, userRef). -/
def identOf (m : MemberIn) : Option String :=
  match m.userRef with
  | some s => if !s.isEmpty then some s else m.email
  | none => m.email

/-- A persisted `userRef` value: either a DocumentReference to `users/{email}` built by
the normalization, or a raw string carried through unchanged. -/
inductive MemberRefVal where
  | ref (userEmail : String)
  | str (s : String)
deriving DecidableEq, Repr

/-- A member entry as stored inside a project document. -/
structure MemberDoc where
  userRef : Option MemberRefVal
  email : Option String
  role : Option String
  roleDetails : Option String
  isOwner : Option Bool
deriving DecidableEq, Repr

/-- Python `"@" in s` (membership of the character in the string). -/
def hasAtSign (s : String) : Bool := s.toList.contains '@'

/-- The unchanged embedding of a caller member dict into a stored member: every field
kept, a raw userRef string staying a string. -/
def plainDoc (m : MemberIn) : MemberDoc :=
  { userRef := m.userRef.map MemberRefVal.str
    email := m.email
    role := m.role
    roleDetails := m.roleDetails
    isOwner := m.isOwner }

/-- Per-member normalization shared by firestore_create_project and
firestore_update_project: when the identity is a string containing `@`, set `userRef`
to the `users/{email}` DocumentReference and delete the `email` key; otherwise the
member dict is kept as supplied. -/
def processMember (m : MemberIn) : MemberDoc :=
  match identOf m with
  | some s =>
    if hasAtSign s then
      { userRef := some (MemberRefVal.ref s)
        email := none
        role := m.role
        roleDetails := m.roleDetails
        isOwner := m.isOwner }
    else plainDoc m
  | none => plainDoc m

/-- The pre-`try` filter `[m for m in members if m and any(m.values())]` of
firestore_create_project.  On a non-empty string element, `any(m.values())` raises
AttributeError, which at that point is not caught; an empty string is falsy and is
dropped before `.values()` is reached. -/
def filterMembers : List MemberInput → Except String (List MemberInput)
  | [] => .ok []
  | .str s :: rest =>
    if s.isEmpty then filterMembers rest else .error "AttributeError"
  | .obj m :: rest =>
    if m.anyTruthy then (filterMembers rest).map (MemberInput.obj m :: ·)
    else filterMembers rest

/-- The member-processing loop (shared shape of create and update): skip falsy entries,
normalize the rest; `any(member.values())` on a non-empty string raises AttributeError
(inside the `try` of either function). -/
def processMembersE : List MemberInput → Except String (List MemberDoc)
  | [] => .ok []
  | .str s :: rest =>
    if s.isEmpty then processMembersE rest else .error "AttributeError"
  | .obj m :: rest =>
    if m.anyTruthy then (processMembersE rest).map (processMember m :: ·)
    else processMembersE rest

/-- Python `value or default` for an optional string argument. -/
def pyOrEmpty (o : Option String) (d : String) : String :=
  match o with
  | some s => if s.isEmpty then d else s
  | none => d

/-- The project document written by firestore_create_project (createdAt/updatedAt are
the instant `convert_utc_to_jst(datetime.now(timezone.utc))`, kept as an `Int`
instant here). -/
structure ProjectDoc where
  projectName : String
  projectOverview : String
  status : String
  projectOwner : List String
  rules : List RuleIn
  createdAt : Int
  updatedAt : Int
  createdBy : String
  members : List MemberDoc
  projectId : String
deriving DecidableEq, Repr

/-- Outcome of firestore_create_project: the structured success dict (with the written
document), the structured error dict, or an exception escaping to the caller (nothing
written in either failure case). -/
inductive CreateOutcome where
  | success (projectId projectName : String) (written : ProjectDoc)
  | errorResult (msg : String)
  | uncaught (exc : String)
deriving DecidableEq, Repr

/-- Whether the call returned a structured dict (as opposed to an uncaught fault). -/
def CreateOutcome.isStructuredReturn : CreateOutcome → Bool
  | .uncaught _ => false
  | _ => true

/-- The members array of the document written on success, if any. -/
def CreateOutcome.writtenMembers : CreateOutcome → Option (List MemberDoc)
  | .success _ _ d => some d.members
  | _ => none

/-- Embedding of `firestore_create_project` (src/v1/common/firestore_tools.py,
lines 1306-1404).  `now` is the captured timestamp instant and `newId` the
store-assigned document id. -/
def firestore_create_project (user_email : String)
    (project_name project_overview status : Option String)
    (membersArg : Option (List MemberInput)) (rulesArg : Option (List RuleIn))
    (now : Int) (newId : String) : CreateOutcome :=
  let members := membersArg.getD []
  let rules := rulesArg.getD []
  match project_name with
  | none => .errorResult "プロジェクト名が必要です"
  | some pname =>
    if pname.isEmpty then .errorResult "プロジェクト名が必要です"
    else
      match filterMembers members with
      | .error e => .uncaught e
      | .ok filtered =>
        match processMembersE filtered with
        | .error e => .errorResult ("Failed to create project: " ++ e)
        | .ok processed_members =>
          .success newId pname
            { projectName := pname
              projectOverview := pyOrEmpty project_overview ""
              status := pyOrEmpty status "open"
              projectOwner := [user_email]
              rules := rules
              createdAt := now
              updatedAt := now
              createdBy := user_email
              members := processed_members
              projectId := newId }

/-- The partial-update payload built by firestore_update_project; only supplied fields
are present, updatedAt/updatedBy always. -/
structure UpdateData where
  updatedAt : Int
  updatedBy : String
  projectName : Option String
  status : Option String
  projectOverview : Option String
  members : Option (List MemberDoc)
  rules : Option (List RuleIn)
deriving DecidableEq, Repr

/-- Outcome of firestore_update_project (exceptions inside its `try` are caught and
become a structured error). -/
inductive UpdateOutcome where
  | success (projectId : String) (updatedFields : List String) (payload : UpdateData)
  | errorResult (msg : String)
deriving DecidableEq, Repr

def UpdateOutcome.payloadMembers : UpdateOutcome → Option (List MemberDoc)
  | .success _ _ p => p.members
  | .errorResult _ => none

/-- `list(update_data.keys())` in insertion order. -/
def updateFieldNames (u : UpdateData) : List String :=
  ["updatedAt", "updatedBy"]
    ++ (if u.projectName.isSome then ["projectName"] else [])
    ++ (if u.status.isSome then ["status"] else [])
    ++ (if u.projectOverview.isSome then ["projectOverview"] else [])
    ++ (if u.members.isSome then ["members"] else [])
    ++ (if u.rules.isSome then ["rules"] else [])

/-- Embedding of `firestore_update_project` (src/v1/common/firestore_tools.py,
lines 1448-1520). -/
def firestore_update_project (project_id : String)
    (project_name status project_overview : Option String)
    (membersArg : Option (List MemberInput)) (rulesArg : Option (List RuleIn))
    (user_email : String) (now : Int) : UpdateOutcome :=
  if project_id.isEmpty then .errorResult "project_id is required"
  else
    match membersArg with
    | none =>
      let u : UpdateData :=
        { updatedAt := now, updatedBy := user_email, projectName := project_name,
          status := status, projectOverview := project_overview, members := none,
          rules := rulesArg }
      .success project_id (updateFieldNames u) u
    | some ms =>
      match processMembersE ms with
      | .error e => .errorResult ("Failed to update project: " ++ e)
      | .ok pms =>
        let u : UpdateData :=
          { updatedAt := now, updatedBy := user_email, projectName := project_name,
            status := status, projectOverview := project_overview, members := some pms,
            rules := rulesArg }
        .success project_id (updateFieldNames u) u

/-! ## The effective firestore_get_all_projects

src/v1/common/firestore_tools.py defines `firestore_get_all_projects` twice (lines 965
and 1407); in Python the second definition shadows the first, so the binding the
coordinator agent imports is the ADK-response version below, which streams every
project and passes it through `_clean_firestore_data` (DocumentReference → path string,
everything else kept). -/

/-- `_clean_firestore_data` on a stored userRef value: a DocumentReference becomes its
path string, a raw string is kept. -/
def refPath : MemberRefVal → String
  | .ref e => "users/" ++ e
  | .str s => s

/-- A member entry after `_clean_firestore_data`. -/
structure CleanedMember where
  userRef : Option String
  email : Option String
  role : Option String
  roleDetails : Option String
  isOwner : Option Bool
deriving DecidableEq, Repr

def cleanMember (m : MemberDoc) : CleanedMember :=
  { userRef := m.userRef.map refPath
    email := m.email
    role := m.role
    roleDetails := m.roleDetails
    isOwner := m.isOwner }

/-- A project document after `_clean_firestore_data` (timestamps, rendered to ISO
strings by the Python helper, stay `Int` instants here). -/
structure CleanedProject where
  projectName : String
  projectOverview : String
  status : String
  projectOwner : List String
  rules : List RuleIn
  createdAt : Int
  updatedAt : Int
  createdBy : String
  members : List CleanedMember
  projectId : String
deriving DecidableEq, Repr

def cleanProject (p : ProjectDoc) : CleanedProject :=
  { projectName := p.projectName
    projectOverview := p.projectOverview
    status := p.status
    projectOwner := p.projectOwner
    rules := p.rules
    createdAt := p.createdAt
    updatedAt := p.updatedAt
    createdBy := p.createdBy
    members := p.members.map cleanMember
    projectId := p.projectId }

structure GetAllProjectsResponse where
  projects : List CleanedProject
  count : Nat
deriving DecidableEq, Repr

/-- Embedding of the effective `firestore_get_all_projects` (the second definition,
src/v1/common/firestore_tools.py lines 1407-1445), over the list of project documents
in the store. -/
def firestore_get_all_projects (store : List ProjectDoc) : GetAllProjectsResponse :=
  let ps := store.map cleanProject
  { projects := ps, count := ps.length }

/-! ## getProjectById (modelled from the spec) -/

/-- A userProfiles record selected by `_get_user_info` (displayName, nickname). -/
structure UserProfileRec where
  displayName : String
  nickname : String
deriving DecidableEq, Repr

/-- The userInfo inlined for a resolved member: the identity is the referenced
`users/{email}` document key; the profile may be absent. -/
structure ResolvedUserInfo where
  userEmail : String
  profile : Option UserProfileRec
deriving DecidableEq, Repr

/-- A member entry as returned by the point-lookup read: isOwner and the raw userRef
are stripped; userInfo is inlined when the reference resolves. -/
structure ResolvedMember where
  email : Option String
  role : Option String
  roleDetails : Option String
  userInfo : Option ResolvedUserInfo
deriving DecidableEq, Repr

structure FetchedProject where
  projectId : String
  projectName : String
  projectOverview : String
  status : String
  members : List ResolvedMember
deriving DecidableEq, Repr

/-- Modelled from the spec: member resolution of the point lookup.  Per spec §4.3, a
member with a resolvable user reference gets a `userInfo` record (display name,
nickname) fetched from that user's profile sub-collection — the referenced document's
key is the user's email identity — and `isOwner` and the raw `userRef` are always
stripped before returning. -/
def resolveMember (users : List (String × UserProfileRec)) (m : MemberDoc) : ResolvedMember :=
  match m.userRef with
  | some (MemberRefVal.ref e) =>
    { email := m.email, role := m.role, roleDetails := m.roleDetails,
      userInfo := some { userEmail := e, profile := (users.find? (fun u => u.1 == e)).map Prod.snd } }
  | _ =>
    { email := m.email, role := m.role, roleDetails := m.roleDetails, userInfo := none }

/-- Modelled from the spec: `firestore_get_project_by_id` is imported by
src/v1/coordinator/agent.py but its definition is not under src/.  Per spec §4.3 it is
a point lookup returning not-found for an absent id and otherwise the project with each
member's reference resolved to an inlined userInfo, isOwner/userRef stripped. -/
def firestore_get_project_by_id (pid : String) (store : List ProjectDoc)
    (users : List (String × UserProfileRec)) : Option FetchedProject :=
  match store.find? (fun p => p.projectId == pid) with
  | none => none
  | some p =>
    some { projectId := pid
           projectName := p.projectName
           projectOverview := p.projectOverview
           status := p.status
           members := p.members.map (resolveMember users) }

/-- A stored member with an ownership flag and a user reference (demo data for the
getAllProjects analysis). -/
def demoLeaderMember : MemberDoc :=
  { userRef := some (MemberRefVal.ref "bob@example.com"), email := none,
    role := some "Leader", roleDetails := none, isOwner := some true }

/-- A stored open project containing `demoLeaderMember`. -/
def demoProjectDoc : ProjectDoc :=
  { projectName := "Demo", projectOverview := "overview", status := "open",
    projectOwner := ["owner@example.com"], rules := [], createdAt := 0, updatedAt := 0,
    createdBy := "owner@example.com", members := [demoLeaderMember], projectId := "p1" }

/-- A member dict used by the round-trip witness. -/
def carolMemberIn : MemberIn :=
  { userRef := none, email := some "carol@example.com", role := some "Engineer",
    roleDetails := none, isOwner := some false }

/-! ## Recursive subtree fetcher (_get_subtasks_recursively) and user task listing
(_get_user_tasks, _get_user_projects) -/

/-- The nested `subTasks` sub-collection structure under a task document: each child
document has an id (its store key), the fields the traversal reads (title, status) and
its own nested `subTasks` children. -/
inductive SubNode : Type where
  | mk (id : String) (title : String) (status : String) (children : List SubNode)

def SubNode.nid : SubNode → String
  | .mk i _ _ _ => i

def SubNode.children : SubNode → List SubNode
  | .mk _ _ _ cs => cs

/-- An element of the task lists returned by the read operations: the document fields
the claims inspect (title, status) plus the metadata annotations the code adds.
`projectId`/`projectName` are `none` on the raw subtree-fetch output and set by
_get_user_tasks afterwards. -/
structure TaskEntry where
  taskId : String
  taskPath : String
  isSubTask : Bool
  nestingLevel : Nat
  parentTaskPath : Option String
  projectId : Option String
  projectName : Option String
  title : String
  status : String
deriving DecidableEq, Repr

/-- Embedding of `_get_subtasks_recursively` (src/v1/common/firestore_tools.py,
lines 53-102) over the children of the document at `parentPath`: at
`level > maxLevel` return empty immediately; otherwise, for each streamed child,
annotate it with its id, path, the `isSubTask` marker, the parent path and the current
level, append it, and recurse into its own children at `level + 1` (pre-order,
flattened).  Store errors are not modelled (`stream` is assumed to succeed). -/
def fetchSub (parentPath : String) (cs : List SubNode) (level maxLevel : Nat) :
    List TaskEntry :=
  if level > maxLevel then []
  else cs.attach.flatMap (fun c =>
    match c with
    | ⟨SubNode.mk i t s children, _h⟩ =>
      { taskId := i, taskPath := parentPath ++ "/subTasks/" ++ i, isSubTask := true,
        nestingLevel := level, parentTaskPath := some parentPath, projectId := none,
        projectName := none, title := t, status := s }
        :: fetchSub (parentPath ++ "/subTasks/" ++ i) children (level + 1) maxLevel)
termination_by sizeOf cs
decreasing_by
  have := List.sizeOf_lt_of_mem _h
  simp at this
  omega

/-- Does `needle` occur at the head of the character list? -/
def charsLeadMatch : List Char → List Char → Bool
  | [], _ => true
  | _ :: _, [] => false
  | a :: as, b :: bs => a == b && charsLeadMatch as bs

/-- Does `needle` occur anywhere in the character list? -/
def occursIn (needle : List Char) : List Char → Bool
  | [] => needle.isEmpty
  | b :: rest => charsLeadMatch needle (b :: rest) || occursIn needle rest

/-- Python substring membership `needle in hay`. -/
def strIncludesSub (hay needle : String) : Bool := occursIn needle.toList hay.toList

/-- A task document's `assignee` field: a string (an absent field reads as `""` via
`.get("assignee", "")`), a list of identities, or any other value shape. -/
inductive AssigneeVal where
  | str (s : String)
  | emails (ss : List String)
  | otherShape

/-- A task document together with its nested subTasks sub-collection. -/
structure TaskDoc where
  id : String
  title : String
  status : String
  assignee : AssigneeVal
  subTasks : List SubNode

/-- A projects-collection entry in the store: store key, document fields, and the
`tasks` sub-collection. -/
structure ProjStore where
  id : String
  doc : ProjectDoc
  tasks : List TaskDoc

/-- The summary record built by `_get_user_projects` (its `description` key is read
with default `""`; project documents written by this repository do not carry one). -/
structure UserProjectInfo where
  projectId : String
  projectName : String
  status : String
  description : String
deriving DecidableEq, Repr

/-- The membership test of `_get_user_projects`: a member dict whose `userRef` is a
DocumentReference whose path contains the user email as a substring; a raw-string
userRef has no `path` attribute and never matches. -/
def memberMatchesUser (email : String) (m : MemberDoc) : Bool :=
  match m.userRef with
  | some (MemberRefVal.ref e) => strIncludesSub ("users/" ++ e) email
  | _ => false

/-- Embedding of `_get_user_projects` (src/v1/common/firestore_tools.py,
lines 840-898): scan all projects, keep those with a member whose resolved reference
path contains the user email. -/
def getUserProjects (email : String) (store : List ProjStore) : List UserProjectInfo :=
  store.filterMap (fun ps =>
    if ps.doc.members.any (memberMatchesUser email) then
      some { projectId := ps.id, projectName := ps.doc.projectName,
             status := ps.doc.status, description := "" }
    else none)

def taskDocPath (pid tid : String) : String := "projects/" ++ pid ++ "/tasks/" ++ tid

/-- The metadata added to a kept top-level task by `_get_user_tasks`. -/
def taskTopEntry (pid pname : String) (t : TaskDoc) : TaskEntry :=
  { taskId := t.id, taskPath := taskDocPath pid t.id, isSubTask := false,
    nestingLevel := 0, parentTaskPath := none, projectId := some pid,
    projectName := some pname, title := t.title, status := t.status }

/-- The per-subtask projectId/projectName annotation `_get_user_tasks` adds after the
recursive fetch. -/
def withProject (pid pname : String) (e : TaskEntry) : TaskEntry :=
  { e with projectId := some pid, projectName := some pname }

/-- The assignment test of `_get_user_tasks` on `task_dict.get("assignee", "")`. -/
def isAssignedTo (email : String) : AssigneeVal → Bool
  | .str s => s == email
  | .emails ss => ss.contains email
  | .otherShape => false

/-- The per-project task loop of `_get_user_tasks`: keep tasks assigned to the user,
optionally skip completed ones, and append each kept task followed by its flattened
subtree (levels 1..3). -/
def tasksForProject (email : String) (includeCompleted : Bool) (pid pname : String)
    (ts : List TaskDoc) : List TaskEntry :=
  ts.flatMap (fun t =>
    if !(isAssignedTo email t.assignee) then []
    else if !includeCompleted && t.status == "completed" then []
    else
      taskTopEntry pid pname t
        :: (fetchSub (taskDocPath pid t.id) t.subTasks 1 3).map (withProject pid pname))

/-- Embedding of `_get_user_tasks` (src/v1/common/firestore_tools.py, lines 489-598):
with `project_id = none` it scans the user's projects via getUserProjects; for each
project id it looks the project up (an absent id yields the empty task stream) and
collects the assigned tasks with their subtrees. -/
def getUserTasks (email : String) (project_id : Option String) (include_completed : Bool)
    (store : List ProjStore) : List TaskEntry :=
  let pids := match project_id with
    | some pid => [pid]
    | none => (getUserProjects email store).map UserProjectInfo.projectId
  pids.flatMap (fun pid =>
    match store.find? (fun ps => ps.id == pid) with
    | some ps => tasksForProject email include_completed pid ps.doc.projectName ps.tasks
    | none => [])

/-- A chain of nested subtasks four levels deep (demo data). -/
def demoDeepTree : SubNode :=
  .mk "s1" "t1" "ready"
    [.mk "s2" "t2" "ready" [.mk "s3" "t3" "ready" [.mk "s4" "t4" "ready" []]]]

/-- Demo task data for the user-task listing: an assigned ready task carrying a
completed subtask. -/
def demoSubCompleted : SubNode := .mk "sc1" "Subtask" "completed" []

def demoTaskReady : TaskDoc :=
  { id := "t1", title := "Main", status := "ready",
    assignee := .str "bob@example.com", subTasks := [demoSubCompleted] }

def demoTaskDone : TaskDoc :=
  { id := "t2", title := "Done", status := "completed",
    assignee := .str "bob@example.com", subTasks := [] }

def demoProjStore : ProjStore :=
  { id := "p1", doc := demoProjectDoc, tasks := [demoTaskReady, demoTaskDone] }

-- ===================== THEOREMS =====================

/-- C1: for every firestore_create_advice_queue call, if the effective instant after the
priority-based adjustment has a JST local hour outside [9, 18), the call returns the
descriptive error message and writes nothing; the hour-window test is evaluated on the
possibly-replaced instant `effectiveAdviceInstant proposed now priority`, i.e. after the
backoff step. -/
theorem advice_hour_window_checked_after_backoff
    (user_email : String) (project_id task_id : Option String) (advice_type : String)
    (priority : Int) (reason suggested_time : String) (proposed now : Int) (newDocId : String)
    (hwin : jstHour (effectiveAdviceInstant proposed now priority) < 9 ∨
            18 ≤ jstHour (effectiveAdviceInstant proposed now priority)) :
    firestore_create_advice_queue user_email project_id task_id advice_type priority reason
        suggested_time (some proposed) now newDocId
      = .errorResult (invalidTimeMsg suggested_time (effectiveAdviceInstant proposed now priority))
    ∧ (firestore_create_advice_queue user_email project_id task_id advice_type priority reason
        suggested_time (some proposed) now newDocId).written = none := by
  simp only [firestore_create_advice_queue]
  rw [if_pos hwin]
  exact ⟨rfl, rfl⟩

/-- Witness for C1: at 1970-01-01T22:53:20+09:00 JST (proposed = 50000 s, now = 0) the
effective instant is the proposed one, its JST hour is 22, and the call is rejected
without a write. -/
theorem advice_hour_window_checked_after_backoff_witness :
    firestore_create_advice_queue "u@example.com" none none "general" 3 "r"
        "1970-01-01T22:53:20+09:00" (some 50000) 0 "q1"
      = .errorResult (invalidTimeMsg "1970-01-01T22:53:20+09:00" (effectiveAdviceInstant 50000 0 3))
    ∧ (firestore_create_advice_queue "u@example.com" none none "general" 3 "r"
        "1970-01-01T22:53:20+09:00" (some 50000) 0 "q1").written = none :=
  advice_hour_window_checked_after_backoff "u@example.com" none none "general" 3 "r"
    "1970-01-01T22:53:20+09:00" 50000 0 "q1" (by decide)

/-- C2: for every firestore_create_advice_queue call whose parsed proposed instant is not
strictly after the captured now, any stored document's advice_time is now plus a delay
determined only by priority: 10 minutes for priority 5, 15 for 4, 20 for 3, 25 for 2,
30 for 1, and 15 minutes for any other priority. -/
theorem advice_backoff_delay_table
    (user_email : String) (project_id task_id : Option String) (advice_type : String)
    (priority : Int) (reason suggested_time : String) (proposed now : Int) (newDocId : String)
    (hpast : proposed ≤ now) (msg : String) (doc : AdviceDoc)
    (hok : firestore_create_advice_queue user_email project_id task_id advice_type priority
        reason suggested_time (some proposed) now newDocId = .queued msg doc) :
    doc.advice_time = now + 60 *
      (if priority = 5 then 10 else if priority = 4 then 15 else if priority = 3 then 20
       else if priority = 2 then 25 else if priority = 1 then 30 else 15) := by
  simp only [firestore_create_advice_queue] at hok
  split at hok
  · exact absurd hok (by simp)
  · have hdoc := (AdviceOutcome.queued.injEq _ _ _ _).mp hok
    have := hdoc.2
    subst this
    simp only [effectiveAdviceInstant, if_pos hpast, priority_to_delay]

/-- Witness for C2: priority 5 with a proposed instant equal to now (epoch 0, which is
09:00 JST) stores advice_time = now + 10 minutes = 600. -/
theorem advice_backoff_delay_table_witness :
    ({ user_email := "u@example.com", project_id := none, task_id := none,
       advice_type := "urgent", priority := 5, reason := "r", advice_time := 600,
       status := "pending", created_at := 0, processed_at := none,
       result := none } : AdviceDoc).advice_time
      = 0 + 60 * (if (5:Int) = 5 then 10 else if (5:Int) = 4 then 15 else if (5:Int) = 3 then 20
          else if (5:Int) = 2 then 25 else if (5:Int) = 1 then 30 else 15) :=
  advice_backoff_delay_table "u@example.com" none none "urgent" 5 "r"
    "1970-01-01T09:00:00+09:00" 0 0 "q1" (by decide)
    (adviceSuccessMsg "u@example.com" 5 "q1" "1970-01-01T09:00:00+09:00") _ (by decide)

/-- C10: firestore_create_advice_queue captures "now" (and hence created_at and the
business-hours evaluation point) at the fixed Asia/Tokyo wall clock utcNow + 9 h
unconditionally, while the listPending threshold and the setStatus processed_at go
through convert_utc_to_jst with the configurable ADJUST_TIME (9 hours normally, 0 when
IS_LOCAL); so with IS_LOCAL set the two wall-clock readings of the same call instant
differ by nine hours. -/
theorem advice_clock_sources_disagree_when_local (utcNow hours : Int) :
    adviceQueueNowLocal utcNow = utcNow + 9 * 3600
    ∧ ADJUST_TIME true = 0
    ∧ ADJUST_TIME false = 9
    ∧ pendingThresholdLocal true utcNow hours = convert_utc_to_jst_local true utcNow - hours * 3600
    ∧ updateStatusProcessedAtLocal true utcNow = convert_utc_to_jst_local true utcNow
    ∧ adviceQueueNowLocal utcNow = convert_utc_to_jst_local false utcNow
    ∧ adviceQueueNowLocal utcNow - convert_utc_to_jst_local true utcNow = 9 * 3600 := by
  refine ⟨rfl, rfl, rfl, rfl, rfl, ?_, ?_⟩
  · simp [adviceQueueNowLocal, convert_utc_to_jst_local, ADJUST_TIME]
  · simp [adviceQueueNowLocal, convert_utc_to_jst_local, ADJUST_TIME]

/-- C6 counterexample: two calls identical except for the captured "now" (epoch 0 vs 60,
both triggering the backoff) store different advice_times (600 vs 660 seconds) yet
return the same confirmation message, which interpolates the raw suggested_time
argument; so the confirmation reports the originally requested time, not the effective
time actually stored. -/
theorem advice_message_ignores_adjustment :
    (firestore_create_advice_queue "u@example.com" none none "urgent" 5 "r"
        "1970-01-01T09:00:00+09:00" (some 0) 0 "q1").message
      = (firestore_create_advice_queue "u@example.com" none none "urgent" 5 "r"
        "1970-01-01T09:00:00+09:00" (some 0) 60 "q1").message
    ∧ ((firestore_create_advice_queue "u@example.com" none none "urgent" 5 "r"
        "1970-01-01T09:00:00+09:00" (some 0) 0 "q1").written.map AdviceDoc.advice_time
        = some 600)
    ∧ ((firestore_create_advice_queue "u@example.com" none none "urgent" 5 "r"
        "1970-01-01T09:00:00+09:00" (some 0) 60 "q1").written.map AdviceDoc.advice_time
        = some 660)
    ∧ (firestore_create_advice_queue "u@example.com" none none "urgent" 5 "r"
        "1970-01-01T09:00:00+09:00" (some 0) 0 "q1").message
      = "✅ Advice queued for u@example.com (Priority 5, ID: q1, Time: 1970-01-01T09:00:00+09:00)" := by
  refine ⟨rfl, by decide, by decide, rfl⟩

/-- C6 amended: on every successful firestore_create_advice_queue call the confirmation
message is built from the raw suggested_time argument (the originally requested time),
independent of the adjusted advice_time actually stored; the adjustment is only
logged. -/
theorem advice_message_reports_requested_time
    (user_email : String) (project_id task_id : Option String) (advice_type : String)
    (priority : Int) (reason suggested_time : String) (parsedSuggested : Option Int)
    (now : Int) (newDocId : String) (msg : String) (doc : AdviceDoc)
    (hok : firestore_create_advice_queue user_email project_id task_id advice_type priority
        reason suggested_time parsedSuggested now newDocId = .queued msg doc) :
    msg = "✅ Advice queued for " ++ user_email ++ " (Priority " ++ toString priority
      ++ ", ID: " ++ newDocId ++ ", Time: " ++ suggested_time ++ ")" := by
  match parsedSuggested with
  | none => exact absurd hok (by simp [firestore_create_advice_queue])
  | some proposed =>
    simp only [firestore_create_advice_queue] at hok
    split at hok
    · exact absurd hok (by simp)
    · have := ((AdviceOutcome.queued.injEq _ _ _ _).mp hok).1
      exact this.symm

/-- Witness for the amended C6: a concrete successful adjusted call whose message shows
the requested time string. -/
theorem advice_message_reports_requested_time_witness :
    adviceSuccessMsg "w@example.com" 4 "q7" "1970-01-01T09:05:00+09:00"
      = "✅ Advice queued for " ++ "w@example.com" ++ " (Priority " ++ toString (4:Int)
      ++ ", ID: " ++ "q7" ++ ", Time: " ++ "1970-01-01T09:05:00+09:00" ++ ")" :=
  advice_message_reports_requested_time "w@example.com" none none "project" 4 "r"
    "1970-01-01T09:05:00+09:00" (some 300) 300 "q7"
    (adviceSuccessMsg "w@example.com" 4 "q7" "1970-01-01T09:05:00+09:00")
    { user_email := "w@example.com", project_id := none, task_id := none,
      advice_type := "project", priority := 4, reason := "r", advice_time := 1200,
      status := "pending", created_at := 300, processed_at := none, result := none }
    (by decide)

/-! Helper lemmas about the member pipeline. -/

theorem filterMembers_objs (ms : List MemberIn) :
    filterMembers (ms.map MemberInput.obj)
      = .ok ((ms.filter MemberIn.anyTruthy).map MemberInput.obj) := by
  induction ms with
  | nil => rfl
  | cons m rest ih =>
    simp only [List.map_cons, filterMembers, List.filter_cons]
    by_cases h : m.anyTruthy
    · simp [h, ih, Except.map]
    · simp [h, ih]

theorem processMembersE_objs (ms : List MemberIn) :
    processMembersE (ms.map MemberInput.obj)
      = .ok ((ms.filter MemberIn.anyTruthy).map processMember) := by
  induction ms with
  | nil => rfl
  | cons m rest ih =>
    simp only [List.map_cons, processMembersE, List.filter_cons]
    by_cases h : m.anyTruthy
    · simp [h, ih, Except.map]
    · simp [h, ih]

theorem filter_anyTruthy_idem (ms : List MemberIn) :
    (ms.filter MemberIn.anyTruthy).filter MemberIn.anyTruthy = ms.filter MemberIn.anyTruthy :=
  List.filter_eq_self.mpr (fun _ ha => List.of_mem_filter ha)

/-- The document written by firestore_create_project for a non-empty name and a
members list of dicts. -/
theorem create_project_obj_eq (user_email pname : String) (hpn : ¬ pname.isEmpty)
    (po st : Option String) (ms : List MemberIn) (rules : List RuleIn)
    (now : Int) (newId : String) :
    firestore_create_project user_email (some pname) po st
        (some (ms.map MemberInput.obj)) (some rules) now newId
      = .success newId pname
          { projectName := pname
            projectOverview := pyOrEmpty po ""
            status := pyOrEmpty st "open"
            projectOwner := [user_email]
            rules := rules
            createdAt := now
            updatedAt := now
            createdBy := user_email
            members := (ms.filter MemberIn.anyTruthy).map processMember
            projectId := newId } := by
  simp only [firestore_create_project, Option.getD_some]
  rw [if_neg hpn]
  simp only [filterMembers_objs, processMembersE_objs, filter_anyTruthy_idem]

/-- C4 amended: for every members list of dicts passed to firestore_create_project or
firestore_update_project, an entry with no truthy field is dropped; an entry whose
identity (userRef-or-email) contains an `@` is persisted with a users/{email}
DocumentReference and without a literal email field; but an entry whose identity lacks
an `@` (or that has no identity) is NOT dropped — it is persisted unchanged, retaining
any literal email field and any raw userRef string. -/
theorem project_member_normalization
    (ms : List MemberIn) (user_email pid pname : String) (hpn : ¬ pname.isEmpty)
    (hpid : ¬ pid.isEmpty)
    (po st : Option String) (rules : List RuleIn) (now : Int) (newId : String) :
    (∃ doc, firestore_create_project user_email (some pname) po st
        (some (ms.map MemberInput.obj)) (some rules) now newId = .success newId pname doc
      ∧ doc.members = (ms.filter MemberIn.anyTruthy).map processMember)
    ∧ (∃ flds pay, firestore_update_project pid none none none
        (some (ms.map MemberInput.obj)) none user_email now = .success pid flds pay
      ∧ pay.members = some ((ms.filter MemberIn.anyTruthy).map processMember))
    ∧ (∀ m ∈ ms, ∀ s, identOf m = some s →
        (hasAtSign s = true →
          processMember m =
            { userRef := some (MemberRefVal.ref s), email := none, role := m.role,
              roleDetails := m.roleDetails, isOwner := m.isOwner })
        ∧ (hasAtSign s = false → processMember m = plainDoc m))
    ∧ (∀ m ∈ ms, identOf m = none → processMember m = plainDoc m) := by
  refine ⟨⟨_, create_project_obj_eq user_email pname hpn po st ms rules now newId, rfl⟩,
    ?_, ?_, ?_⟩
  · have hupd : firestore_update_project pid none none none
        (some (ms.map MemberInput.obj)) none user_email now
        = .success pid
            (updateFieldNames
              { updatedAt := now, updatedBy := user_email, projectName := none,
                status := none, projectOverview := none,
                members := some ((ms.filter MemberIn.anyTruthy).map processMember),
                rules := none })
            { updatedAt := now, updatedBy := user_email, projectName := none,
              status := none, projectOverview := none,
              members := some ((ms.filter MemberIn.anyTruthy).map processMember),
              rules := none } := by
      simp only [firestore_update_project]
      rw [if_neg hpid]
      simp only [processMembersE_objs]
    exact ⟨_, _, hupd, rfl⟩
  · intro m _ s hid
    constructor
    · intro hat
      simp [processMember, hid, hat]
    · intro hat
      simp [processMember, hid, hat]
  · intro m _ hid
    simp [processMember, hid]

/-- Concrete inputs for the C4 counterexample and witnesses. -/
def bobMemberIn : MemberIn :=
  { userRef := none, email := some "bob", role := some "Engineer",
    roleDetails := none, isOwner := some false }

def aliceMemberIn : MemberIn :=
  { userRef := none, email := some "alice@example.com", role := some "Engineer",
    roleDetails := none, isOwner := some false }

def emptyMemberIn : MemberIn :=
  { userRef := none, email := none, role := none, roleDetails := none, isOwner := none }

/-- C4 counterexample: a member whose identity "bob" contains no `@` is NOT dropped
from the persisted members array — firestore_create_project persists it unchanged,
literal email field included. -/
theorem member_without_at_not_dropped :
    (firestore_create_project "owner@example.com" (some "P") none none
        (some [MemberInput.obj bobMemberIn]) none 0 "p1").writtenMembers
      = some [plainDoc bobMemberIn]
    ∧ (plainDoc bobMemberIn).email = some "bob"
    ∧ identOf bobMemberIn = some "bob"
    ∧ hasAtSign "bob" = false := by
  refine ⟨by decide, rfl, rfl, by decide⟩

/-- Witness for the amended C4: with one @-bearing member and one all-empty member,
create and update both persist exactly the normalized @-member, and the per-member
normalization facts hold. -/
theorem project_member_normalization_witness :
    (∃ doc, firestore_create_project "o@example.com" (some "P") none none
        (some ([aliceMemberIn, emptyMemberIn].map MemberInput.obj)) (some []) 0 "p9"
        = .success "p9" "P" doc
      ∧ doc.members = ([aliceMemberIn, emptyMemberIn].filter MemberIn.anyTruthy).map processMember)
    ∧ (∃ flds pay, firestore_update_project "pidX" none none none
        (some ([aliceMemberIn, emptyMemberIn].map MemberInput.obj)) none "o@example.com" 0
        = .success "pidX" flds pay
      ∧ pay.members = some (([aliceMemberIn, emptyMemberIn].filter MemberIn.anyTruthy).map processMember))
    ∧ (∀ m ∈ [aliceMemberIn, emptyMemberIn], ∀ s, identOf m = some s →
        (hasAtSign s = true →
          processMember m =
            { userRef := some (MemberRefVal.ref s), email := none, role := m.role,
              roleDetails := m.roleDetails, isOwner := m.isOwner })
        ∧ (hasAtSign s = false → processMember m = plainDoc m))
    ∧ (∀ m ∈ [aliceMemberIn, emptyMemberIn], identOf m = none → processMember m = plainDoc m) :=
  project_member_normalization [aliceMemberIn, emptyMemberIn] "o@example.com" "pidX" "P"
    (by decide) (by decide) none none [] 0 "p9"

/-- A non-empty plain-string member makes the pre-`try` filter raise AttributeError. -/
theorem filterMembers_error_of_str (ms : List MemberInput) (s : String)
    (hs : MemberInput.str s ∈ ms) (hne : ¬ s.isEmpty) :
    filterMembers ms = .error "AttributeError" := by
  induction ms with
  | nil => cases hs
  | cons m rest ih =>
    cases m with
    | str t =>
      by_cases ht : t.isEmpty
      · have : MemberInput.str s ∈ rest := by
          rcases List.mem_cons.mp hs with h | h
          · cases h; exact absurd ht hne
          · exact h
        simp only [filterMembers, if_pos ht]
        exact ih this
      · simp only [filterMembers, if_neg ht]
    | obj o =>
      have : MemberInput.str s ∈ rest := by
        rcases List.mem_cons.mp hs with h | h
        · cases h
        · exact h
      simp only [filterMembers]
      by_cases ho : o.anyTruthy
      · simp [ho, ih this, Except.map]
      · simp [ho, ih this]

/-- C7 counterexample: with a plain string element in the members list,
firestore_create_project lets an AttributeError propagate to the caller — no structured
result is returned and no Owner/Engineer entry is synthesized. -/
theorem string_member_raises :
    firestore_create_project "owner@example.com" (some "P") none none
        (some [MemberInput.str "alice@example.com"]) none 0 "p1"
      = .uncaught "AttributeError"
    ∧ (firestore_create_project "owner@example.com" (some "P") none none
        (some [MemberInput.str "alice@example.com"]) none 0 "p1").isStructuredReturn
      = false := by
  refine ⟨by decide, by decide⟩

/-- C7 amended: every firestore_create_project call with a non-empty project name whose
members list contains a non-empty plain string member raises an uncaught AttributeError
(the pre-validation filter calls .values() on the string, outside the try block) and
persists nothing; the string is never normalized into a role-bearing member entry. -/
theorem string_member_uncaught_attribute_error
    (user_email pname : String) (hpn : ¬ pname.isEmpty) (po st : Option String)
    (ms : List MemberInput) (rulesArg : Option (List RuleIn)) (now : Int) (newId : String)
    (s : String) (hs : MemberInput.str s ∈ ms) (hne : ¬ s.isEmpty) :
    firestore_create_project user_email (some pname) po st (some ms) rulesArg now newId
      = .uncaught "AttributeError" := by
  simp only [firestore_create_project, Option.getD_some]
  rw [if_neg hpn, filterMembers_error_of_str ms s hs hne]

/-- Witness for the amended C7: a dict member followed by the string member still ends
in the uncaught AttributeError. -/
theorem string_member_uncaught_attribute_error_witness :
    firestore_create_project "o@example.com" (some "Q") none none
        (some [MemberInput.obj aliceMemberIn, MemberInput.str "bob"]) none 0 "p2"
      = .uncaught "AttributeError" :=
  string_member_uncaught_attribute_error "o@example.com" "Q" (by decide) none none
    [MemberInput.obj aliceMemberIn, MemberInput.str "bob"] none 0 "p2" "bob"
    (by simp) (by decide)

/-- C5 counterexample: on a store holding one open project with one member carrying an
ownership flag and a user reference, the effective firestore_get_all_projects (the
second definition of that name in the module, which shadows the first) returns the
member with isOwner still present and userRef as the reference's path string, and no
userInfo record is inlined. -/
theorem get_all_projects_keeps_isOwner :
    (firestore_get_all_projects [demoProjectDoc]).projects.map CleanedProject.members
      = [[{ userRef := some "users/bob@example.com", email := none, role := some "Leader",
            roleDetails := none, isOwner := some true }]]
    ∧ demoLeaderMember.isOwner = some true := by
  refine ⟨by decide, rfl⟩

/-- C5 amended: the effective firestore_get_all_projects returns every stored project
passed through _clean_firestore_data: member entries keep their isOwner flag and their
email field, and the raw userRef is not removed but converted to the referenced
document's path string; no userInfo is inlined (the stripping/inlining behaviour
belongs to the first, shadowed definition of the name). -/
theorem get_all_projects_passthrough (store : List ProjectDoc) (p : ProjectDoc)
    (m : MemberDoc) :
    (firestore_get_all_projects store).projects = store.map cleanProject
    ∧ (firestore_get_all_projects store).count = store.length
    ∧ (cleanProject p).members = p.members.map cleanMember
    ∧ (cleanMember m).isOwner = m.isOwner
    ∧ (cleanMember m).userRef = m.userRef.map refPath
    ∧ (cleanMember m).email = m.email := by
  refine ⟨rfl, by simp [firestore_get_all_projects], rfl, rfl, rfl, rfl⟩

/-! Helper lemmas for the round-trip (C9). -/

theorem hasAtSign_not_empty (s : String) (h : hasAtSign s = true) : s.isEmpty = false := by
  cases he : s.isEmpty
  · rfl
  · rw [(String.isEmpty_iff s).mp he] at h
    exact absurd h (by decide)

theorem anyTruthy_of_ident (m : MemberIn) (s : String) (hid : identOf m = some s)
    (hne : s.isEmpty = false) : m.anyTruthy = true := by
  unfold identOf at hid
  unfold MemberIn.anyTruthy
  cases hu : m.userRef with
  | some u =>
    rw [hu] at hid
    simp only at hid
    by_cases hue : u.isEmpty = true
    · rw [if_neg (by simp [hue])] at hid
      simp [hid, hne]
    · have hue' : u.isEmpty = false := by simpa using hue
      simp [hue']
  | none =>
    rw [hu] at hid
    simp only at hid
    simp [hid, hne]

/-- C9: a project created through firestore_create_project with a non-empty name and a
members list whose entries each carry an @-bearing identity, then fetched through the
spec-modelled firestore_get_project_by_id from a store holding exactly the written
document, returns the same name, the same overview, and — after reference resolution —
the same sequence of member identities that was supplied at creation. -/
theorem create_then_get_project_roundtrip
    (user_email pname : String) (hpn : ¬ pname.isEmpty)
    (po st : Option String) (ms : List MemberIn) (rules : List RuleIn)
    (now : Int) (pid : String) (users : List (String × UserProfileRec))
    (hms : ∀ m ∈ ms, ∃ s, identOf m = some s ∧ hasAtSign s = true) :
    ∃ doc fp,
      firestore_create_project user_email (some pname) po st
          (some (ms.map MemberInput.obj)) (some rules) now pid = .success pid pname doc
      ∧ firestore_get_project_by_id pid [doc] users = some fp
      ∧ fp.projectName = pname
      ∧ fp.projectOverview = pyOrEmpty po ""
      ∧ fp.members.map (fun rm => rm.userInfo.map ResolvedUserInfo.userEmail)
          = ms.map identOf := by
  have hkeep : ms.filter MemberIn.anyTruthy = ms := by
    refine List.filter_eq_self.mpr ?_
    intro m hm
    obtain ⟨s, hid, hat⟩ := hms m hm
    exact anyTruthy_of_ident m s hid (hasAtSign_not_empty s hat)
  have hcreate := create_project_obj_eq user_email pname hpn po st ms rules now pid
  rw [hkeep] at hcreate
  refine ⟨_,
    { projectId := pid, projectName := pname, projectOverview := pyOrEmpty po "",
      status := pyOrEmpty st "open",
      members := (ms.map processMember).map (resolveMember users) },
    hcreate, ?_, rfl, rfl, ?_⟩
  · simp only [firestore_get_project_by_id]
    rw [List.find?_cons_of_pos _ (by simp)]
  · simp only [List.map_map]
    refine List.map_congr_left ?_
    intro m hm
    obtain ⟨s, hid, hat⟩ := hms m hm
    rw [hid]
    simp [Function.comp, processMember, hid, hat, resolveMember]

/-- Witness for C9: one @-bearing member round-trips through create and the modelled
point lookup with identity preserved. -/
theorem create_then_get_project_roundtrip_witness :
    ∃ doc fp,
      firestore_create_project "o@example.com" (some "RT") (some "ov") (some "open")
          (some ([carolMemberIn].map MemberInput.obj)) (some []) 0 "rt1"
        = .success "rt1" "RT" doc
      ∧ firestore_get_project_by_id "rt1" [doc] [] = some fp
      ∧ fp.projectName = "RT"
      ∧ fp.projectOverview = pyOrEmpty (some "ov") ""
      ∧ fp.members.map (fun rm => rm.userInfo.map ResolvedUserInfo.userEmail)
          = [carolMemberIn].map identOf :=
  create_then_get_project_roundtrip "o@example.com" "RT" (by decide) (some "ov")
    (some "open") [carolMemberIn] [] 0 "rt1" []
    (by
      intro m hm
      rw [List.mem_singleton.mp hm]
      exact ⟨"carol@example.com", rfl, by decide⟩)

/-! Helper lemmas about the subtree fetcher. -/

/-- Every entry the subtree fetcher returns is marked `isSubTask` and carries a level
between the starting level and the bound. -/
theorem fetchSub_mem_facts (p : String) (cs : List SubNode) (l m : Nat) :
    ∀ o ∈ fetchSub p cs l m, o.nestingLevel ≤ m ∧ o.isSubTask = true := by
  induction p, cs, l, m using fetchSub.induct with
  | case1 p cs l m hgt =>
    intro o ho
    rw [fetchSub, if_pos hgt] at ho
    exact absurd ho (List.not_mem_nil o)
  | case2 p cs l m hle ih =>
    intro o ho
    rw [fetchSub, if_neg hle] at ho
    simp only [List.mem_flatMap, List.mem_attach, true_and] at ho
    obtain ⟨⟨c, hc⟩, hoc⟩ := ho
    cases c with
    | mk i t s children =>
      simp only [List.mem_cons] at hoc
      rcases hoc with h | h
      · subst h
        refine ⟨?_, rfl⟩
        show l ≤ m
        omega
      · exact ih i t s children hc o h

/-- C3: the recursive subtree fetcher never returns a node annotated with a nesting
level greater than maxLevel (chains deeper than the bound are truncated), and calling
it with level > maxLevel returns the empty sequence immediately. -/
theorem subtree_fetch_level_bounded (p : String) (cs : List SubNode) (L N : Nat) :
    (∀ o ∈ fetchSub p cs L N, o.nestingLevel ≤ N) ∧ (L > N → fetchSub p cs L N = []) := by
  constructor
  · intro o ho
    exact (fetchSub_mem_facts p cs L N o ho).1
  · intro h
    rw [fetchSub, if_pos h]

/-- Witness for C3 on a four-deep chain with the default bound 3, plus the immediate
empty return at level 4. -/
theorem subtree_fetch_level_bounded_witness :
    (∀ o ∈ fetchSub "projects/p1/tasks/t1" [demoDeepTree] 1 3, o.nestingLevel ≤ 3)
    ∧ fetchSub "projects/p1/tasks/t1" [demoDeepTree] 4 3 = [] :=
  ⟨(subtree_fetch_level_bounded "projects/p1/tasks/t1" [demoDeepTree] 1 3).1,
   (subtree_fetch_level_bounded "projects/p1/tasks/t1" [demoDeepTree] 4 3).2 (by decide)⟩

/-! Helper lemmas about the user task listing. -/

/-- Decomposition of membership in the per-project task loop. -/
theorem mem_tasksForProject (email : String) (ic : Bool) (pid pname : String)
    (ts : List TaskDoc) (e : TaskEntry) (he : e ∈ tasksForProject email ic pid pname ts) :
    ∃ t ∈ ts, isAssignedTo email t.assignee = true
      ∧ (!ic && t.status == "completed") = false
      ∧ (e = taskTopEntry pid pname t
         ∨ ∃ o ∈ fetchSub (taskDocPath pid t.id) t.subTasks 1 3,
             e = withProject pid pname o) := by
  unfold tasksForProject at he
  simp only [List.mem_flatMap] at he
  obtain ⟨t, ht, he⟩ := he
  refine ⟨t, ht, ?_⟩
  cases ha : isAssignedTo email t.assignee with
  | false => simp [ha] at he
  | true =>
    cases hc : (!ic && t.status == "completed") with
    | true => simp [ha, hc] at he
    | false =>
      rw [ha, hc] at he
      simp only [Bool.not_true, Bool.false_eq_true, if_false, List.mem_cons,
        List.mem_map] at he
      refine ⟨rfl, rfl, ?_⟩
      rcases he with h | ⟨o, ho, hoe⟩
      · exact .inl h
      · exact .inr ⟨o, ho, hoe.symm⟩

/-- Introduction of a subtree entry into the per-project task loop. -/
theorem tasksForProject_sub_mem (email : String) (ic : Bool) (pid pname : String)
    (ts : List TaskDoc) (t : TaskDoc) (ht : t ∈ ts)
    (ha : isAssignedTo email t.assignee = true)
    (hc : (!ic && t.status == "completed") = false)
    (o : TaskEntry) (ho : o ∈ fetchSub (taskDocPath pid t.id) t.subTasks 1 3) :
    withProject pid pname o ∈ tasksForProject email ic pid pname ts := by
  unfold tasksForProject
  simp only [List.mem_flatMap]
  refine ⟨t, ht, ?_⟩
  rw [ha, hc]
  simp only [Bool.not_true, Bool.false_eq_true, if_false, List.mem_cons, List.mem_map]
  exact .inr ⟨o, ho, rfl⟩

/-- Decomposition of membership in getUserTasks with project_id omitted. -/
theorem mem_getUserTasks (email : String) (ic : Bool) (store : List ProjStore)
    (e : TaskEntry) (he : e ∈ getUserTasks email none ic store) :
    ∃ pid ∈ (getUserProjects email store).map UserProjectInfo.projectId,
      ∃ ps, store.find? (fun x => x.id == pid) = some ps
        ∧ e ∈ tasksForProject email ic pid ps.doc.projectName ps.tasks := by
  unfold getUserTasks at he
  simp only [List.mem_flatMap] at he
  obtain ⟨pid, hpid, he⟩ := he
  refine ⟨pid, hpid, ?_⟩
  cases hfind : store.find? (fun x => x.id == pid) with
  | none => rw [hfind] at he; exact absurd he (List.not_mem_nil e)
  | some ps => rw [hfind] at he; exact ⟨ps, rfl, he⟩

/-- Introduction of an entry into getUserTasks with project_id omitted. -/
theorem getUserTasks_mem_intro (email : String) (ic : Bool) (store : List ProjStore)
    (pid : String) (hpid : pid ∈ (getUserProjects email store).map UserProjectInfo.projectId)
    (ps : ProjStore) (hfind : store.find? (fun x => x.id == pid) = some ps)
    (e : TaskEntry) (he : e ∈ tasksForProject email ic pid ps.doc.projectName ps.tasks) :
    e ∈ getUserTasks email none ic store := by
  unfold getUserTasks
  simp only [List.mem_flatMap]
  refine ⟨pid, hpid, ?_⟩
  rw [hfind]
  exact he

/-- C8: with project_id omitted and includeCompleted = false, getUserTasks returns no
top-level task whose status is "completed", and for every task it includes it also
includes every descendant subtask entry produced by the bounded subtree fetch,
regardless of that subtask's own status.  The store is assumed well-formed: document
keys are unique within the projects collection and within each tasks sub-collection. -/
theorem user_tasks_completed_filter_and_subtasks (email : String) (store : List ProjStore)
    (hids : (store.map ProjStore.id).Nodup)
    (htids : ∀ ps ∈ store, (ps.tasks.map TaskDoc.id).Nodup) :
    (∀ e ∈ getUserTasks email none false store, e.isSubTask = false →
        ¬ e.status = "completed")
    ∧ (∀ ps ∈ store, ∀ t ∈ ps.tasks,
        taskTopEntry ps.id ps.doc.projectName t ∈ getUserTasks email none false store →
        ∀ o ∈ fetchSub (taskDocPath ps.id t.id) t.subTasks 1 3,
          withProject ps.id ps.doc.projectName o ∈ getUserTasks email none false store) := by
  constructor
  · intro e he htop
    obtain ⟨pid, hpid, ps, hfind, hmem⟩ := mem_getUserTasks email false store e he
    obtain ⟨t, ht, ha, hc, hcase⟩ := mem_tasksForProject email false pid
      ps.doc.projectName ps.tasks e hmem
    rcases hcase with h | ⟨o, ho, hoe⟩
    · subst h
      intro hst
      simp only [taskTopEntry] at htop hst
      rw [hst] at hc
      simp at hc
    · have hsub := (fetchSub_mem_facts (taskDocPath pid t.id) t.subTasks 1 3 o ho).2
      rw [hoe] at htop
      simp only [withProject] at htop
      rw [hsub] at htop
      exact absurd htop (by simp)
  · intro ps hps t ht htop o ho
    obtain ⟨pid, hpid, ps2, hfind, hmem⟩ :=
      mem_getUserTasks email false store _ htop
    obtain ⟨t2, ht2, ha2, hc2, hcase⟩ := mem_tasksForProject email false pid
      ps2.doc.projectName ps2.tasks _ hmem
    have hps2mem : ps2 ∈ store := List.mem_of_find?_eq_some hfind
    have hps2id : ps2.id = pid := by
      have := List.find?_some hfind
      simpa using this
    rcases hcase with h | ⟨o2, ho2, hoe2⟩
    · -- the top entry matched the top entry of task t2 in project ps2
      have hflds := h
      simp only [taskTopEntry, TaskEntry.mk.injEq, Option.some.injEq] at hflds
      obtain ⟨hid, _hpath, _, _, _, hpidEq, hpnameEq, _htitle, _hstatus⟩ := hflds
      have hpseq : ps = ps2 := by
        apply List.inj_on_of_nodup_map hids hps hps2mem
        rw [hps2id, hpidEq]
      subst hpseq
      have hteq : t = t2 := by
        apply List.inj_on_of_nodup_map (htids ps hps) ht ht2
        exact hid
      subst hteq
      rw [hpidEq, hpnameEq]
      refine getUserTasks_mem_intro email false store pid hpid ps hfind _ ?_
      refine tasksForProject_sub_mem email false pid ps.doc.projectName ps.tasks t ht
        ha2 hc2 o ?_
      rw [hpidEq] at ho
      exact ho
    · -- impossible: the top entry is not a subtree entry
      have hsub := (fetchSub_mem_facts (taskDocPath pid t2.id) t2.subTasks 1 3 o2 ho2).2
      have : (taskTopEntry ps.id ps.doc.projectName t).isSubTask = true := by
        rw [hoe2]
        simp only [withProject]
        exact hsub
      exact absurd this (by simp [taskTopEntry])

/-- Witness for C8: a store with one project where bob has a ready task with a
completed subtask and a completed task; the filter and subtask-inclusion facts hold. -/
theorem user_tasks_completed_filter_and_subtasks_witness :
    (∀ e ∈ getUserTasks "bob@example.com" none false [demoProjStore], e.isSubTask = false →
        ¬ e.status = "completed")
    ∧ (∀ ps ∈ [demoProjStore], ∀ t ∈ ps.tasks,
        taskTopEntry ps.id ps.doc.projectName t
            ∈ getUserTasks "bob@example.com" none false [demoProjStore] →
        ∀ o ∈ fetchSub (taskDocPath ps.id t.id) t.subTasks 1 3,
          withProject ps.id ps.doc.projectName o
            ∈ getUserTasks "bob@example.com" none false [demoProjStore]) :=
  user_tasks_completed_filter_and_subtasks "bob@example.com" [demoProjStore]
    (by decide) (by decide)

end ProjectLibrarian
